import Mathlib

/-!
# MQTT-C platform abstraction layer (`src/mqtt_pal.c`)

A shallow embedding of the two backends of `mqtt_pal.c` (plain BSD sockets and
OpenSSL BIO) and the properties of their send-all / receive-available loops and
of the connection set-up.

Conventions of the embedding

* The target is an LP64 unix: `size_t` is 64 bits wide (arithmetic modulo
  `2^64`), `ssize_t`/`ptrdiff_t` are 64-bit two's complement, `int` is 32 bits.
* A pointer into the caller's buffer is the byte offset from the start of the
  buffer.
* The operating system / OpenSSL primitives the code calls are fields of a
  record over an explicit world state; every function threads that state.
* Each loop takes a fuel argument that bounds the number of primitive calls the
  loop may make; `none` means the fuel ran out before the C function returned.
* Every function returns, next to its C result, the final world state and the
  list of primitive calls it made, in order.
-/

namespace MqttPal

/-! ## Machine integers -/

/-- Conversion of an integer to `size_t` (64 bits, modulo `2^64`). -/
def toSize (z : Int) : Nat := (z % 2 ^ 64).toNat

/-- Conversion of a 64-bit unsigned value to `ssize_t` / `ptrdiff_t`
(two's complement, 64 bits). -/
def toSsize (n : Nat) : Int := ((n : Int) + 2 ^ 63) % 2 ^ 64 - 2 ^ 63

/-- Conversion of an integer to `int` (two's complement, 32 bits), as happens to
the `size_t` count passed to the `int` parameter of `BIO_write` / `BIO_read`. -/
def toInt32 (z : Int) : Int := (z + 2 ^ 31) % 2 ^ 32 - 2 ^ 31

/-- Constants the source takes from headers that are not part of `mqtt_pal.c`:
the error code of `mqtt.h` and the two `errno` values of `<errno.h>`. -/
structure Consts where
  MQTT_ERROR_SOCKET_ERROR : Int
  EAGAIN : Int
  EWOULDBLOCK : Int

/-- One call of a read or write primitive: the buffer offset passed as pointer,
the byte count passed, and the value the primitive returned. -/
structure IoCall where
  off : Nat
  req : Int
  ret : Int
deriving DecidableEq, Repr

/-- Result of a loop: C return value, final world state, calls made. -/
abbrev Run (σ : Type) := Option (Int × σ × List IoCall)

/-- Prepend a call to the call list of the remainder of a loop. -/
def Run.after {σ : Type} (c : IoCall) : Run σ → Run σ
  | none => none
  | some (r, s, tr) => some (r, s, c :: tr)

/-! ## Plain-socket backend -/

/-- The socket primitives of the plain backend. `send s off n flags` and
`recv s off n flags` return `((result, errno), next state)`. -/
structure Socket (σ : Type) where
  send : σ → Nat → Nat → Int → (Int × Int) × σ
  recv : σ → Nat → Nat → Int → (Int × Int) × σ

/-- The `while (sent < len)` loop of the plain `mqtt_pal_sendall` (lines 116-123). -/
def sendallLoop {σ : Type} (c : Consts) (W : Socket σ) (len : Nat) (flags : Int) :
    Nat → σ → Nat → Run σ
  | 0, _, _ => none
  | fuel + 1, s, sent =>
    if sent < len then
      -- ssize_t tmp = send(fd, buf + sent, len - sent, flags);
      let r := W.send s sent (len - sent) flags
      let tmp := r.1.1
      let call : IoCall := ⟨sent, ((len - sent : Nat) : Int), tmp⟩
      if tmp < 1 then
        some (c.MQTT_ERROR_SOCKET_ERROR, r.2, [call])
      else
        -- sent += (size_t) tmp;
        Run.after call (sendallLoop c W len flags fuel r.2 ((sent + toSize tmp) % 2 ^ 64))
    else
      -- return sent;
      some (toSsize sent, s, [])

/-- Plain `mqtt_pal_sendall` (lines 114-124): `sent` starts at 0. -/
def mqtt_pal_sendall {σ : Type} (c : Consts) (W : Socket σ) (fuel : Nat) (s : σ)
    (len : Nat) (flags : Int) : Run σ :=
  sendallLoop c W len flags fuel s 0

/-- The `do ... while (rv > 0)` loop of the plain `mqtt_pal_recvall` (lines 129-139);
`off` is `buf - start`. -/
def recvallLoop {σ : Type} (c : Consts) (W : Socket σ) (flags : Int) :
    Nat → σ → Nat → Nat → Run σ
  | 0, _, _, _ => none
  | fuel + 1, s, off, bufsz =>
    -- rv = recv(fd, buf, bufsz, flags);
    let r := W.recv s off bufsz flags
    let rv := r.1.1
    let errno := r.1.2
    let call : IoCall := ⟨off, (bufsz : Int), rv⟩
    if rv > 0 then
      -- buf += rv; bufsz -= rv; and the loop condition `rv > 0` holds
      Run.after call
        (recvallLoop c W flags fuel r.2 ((off + toSize rv) % 2 ^ 64) (toSize ((bufsz : Int) - rv)))
    else if rv < 0 ∧ errno ≠ c.EAGAIN ∧ errno ≠ c.EWOULDBLOCK then
      some (c.MQTT_ERROR_SOCKET_ERROR, r.2, [call])
    else
      -- loop condition `rv > 0` fails: return buf - start;
      some (toSsize off, r.2, [call])

/-- Plain `mqtt_pal_recvall` (lines 126-142). -/
def mqtt_pal_recvall {σ : Type} (c : Consts) (W : Socket σ) (fuel : Nat) (s : σ)
    (bufsz : Nat) (flags : Int) : Run σ :=
  recvallLoop c W flags fuel s 0 bufsz

/-! ## OpenSSL backend -/

/-- The BIO primitives of the OpenSSL backend. `BIO_write s off n` and
`BIO_read s off n` return `(result, next state)`; the retry flags are read
from the state the last operation left. -/
structure Bio (σ : Type) where
  BIO_write : σ → Nat → Int → Int × σ
  BIO_read : σ → Nat → Int → Int × σ
  BIO_should_retry : σ → Bool
  BIO_should_read : σ → Bool

/-- The `while (sent < len)` loop of the OpenSSL `mqtt_pal_sendall` (lines 74-81). -/
def sslSendallLoop {σ : Type} (c : Consts) (W : Bio σ) (len : Nat) :
    Nat → σ → Nat → Run σ
  | 0, _, _ => none
  | fuel + 1, s, sent =>
    if sent < len then
      -- int tmp = BIO_write(bio, buf + sent, len - sent);
      let r := W.BIO_write s sent (toInt32 ((len - sent : Nat) : Int))
      let tmp := r.1
      let call : IoCall := ⟨sent, toInt32 ((len - sent : Nat) : Int), tmp⟩
      if tmp > 0 then
        Run.after call (sslSendallLoop c W len fuel r.2 ((sent + toSize tmp) % 2 ^ 64))
      else if tmp ≤ 0 ∧ !W.BIO_should_retry r.2 then
        some (c.MQTT_ERROR_SOCKET_ERROR, r.2, [call])
      else
        Run.after call (sslSendallLoop c W len fuel r.2 sent)
    else
      some (toSsize sent, s, [])

/-- OpenSSL `mqtt_pal_sendall` (lines 72-83). -/
def ssl_mqtt_pal_sendall {σ : Type} (c : Consts) (W : Bio σ) (fuel : Nat) (s : σ)
    (len : Nat) : Run σ :=
  sslSendallLoop c W len fuel s 0

/-- The `do ... while (!BIO_should_read(bio))` loop of the OpenSSL
`mqtt_pal_recvall` (lines 88-98). -/
def sslRecvallLoop {σ : Type} (c : Consts) (W : Bio σ) :
    Nat → σ → Nat → Nat → Run σ
  | 0, _, _, _ => none
  | fuel + 1, s, off, bufsz =>
    -- rv = BIO_read(bio, buf, bufsz);
    let r := W.BIO_read s off (toInt32 (bufsz : Int))
    let rv := r.1
    let call : IoCall := ⟨off, toInt32 (bufsz : Int), rv⟩
    if rv > 0 then
      -- buf += rv; bufsz -= rv;
      let off1 := (off + toSize rv) % 2 ^ 64
      let bufsz1 := toSize ((bufsz : Int) - rv)
      if !W.BIO_should_read r.2 then
        Run.after call (sslRecvallLoop c W fuel r.2 off1 bufsz1)
      else
        some (toSsize off1, r.2, [call])
    else if !W.BIO_should_retry r.2 then
      some (c.MQTT_ERROR_SOCKET_ERROR, r.2, [call])
    else if !W.BIO_should_read r.2 then
      Run.after call (sslRecvallLoop c W fuel r.2 off bufsz)
    else
      some (toSsize off, r.2, [call])

/-- OpenSSL `mqtt_pal_recvall` (lines 85-101). -/
def ssl_mqtt_pal_recvall {σ : Type} (c : Consts) (W : Bio σ) (fuel : Nat) (s : σ)
    (bufsz : Nat) : Run σ :=
  sslRecvallLoop c W fuel s 0 bufsz

/-! ## Connection set-up, plain-socket backend -/

/-- One node of the list `getaddrinfo` returns; `ai_addr` stands for the pair
`(ai_addr, ai_addrlen)`, the endpoint the node names. -/
structure AddrInfo where
  ai_family : Int
  ai_socktype : Int
  ai_protocol : Int
  ai_addr : Nat
deriving DecidableEq, Repr

/-- One call of `connect`: descriptor, endpoint passed, returned value. -/
structure ConnectCall where
  fd : Int
  addr : Nat
  ret : Int
deriving DecidableEq, Repr

/-- The system calls `mqtt_pal_sockopen` makes. `getaddrinfo s addr port`
returns `((rv, list), next state)`; `set_nonblock s fd` is
`fcntl(fd, F_SETFL, fcntl(fd, F_GETFL) | O_NONBLOCK)`. -/
structure Net (σ : Type) where
  getaddrinfo : σ → String → String → (Int × List AddrInfo) × σ
  socket : σ → Int → Int → Int → Int × σ
  connect : σ → Int → Nat → Int × σ
  freeaddrinfo : σ → σ
  set_nonblock : σ → Int → σ

/-- The `for (p = servinfo; p != NULL; p = p->ai_next)` loop of
`mqtt_pal_sockopen` (lines 162-170). `servinfo` is the head node of the list,
the second argument is the list from `p` on, the last the current `sockfd`. -/
def sockopenLoop {σ : Type} (W : Net σ) (servinfo : AddrInfo) :
    List AddrInfo → σ → Int → Int × σ × List ConnectCall
  | [], s, sockfd => (sockfd, s, [])
  | p :: rest, s, _ =>
    -- sockfd = socket(p->ai_family, p->ai_socktype, p->ai_protocol);
    let r := W.socket s p.ai_family p.ai_socktype p.ai_protocol
    let sockfd := r.1
    if sockfd = -1 then
      sockopenLoop W servinfo rest r.2 sockfd
    else
      -- rv = connect(sockfd, servinfo->ai_addr, servinfo->ai_addrlen);
      let k := W.connect r.2 sockfd servinfo.ai_addr
      let call : ConnectCall := ⟨sockfd, servinfo.ai_addr, k.1⟩
      if k.1 = -1 then
        let t := sockopenLoop W servinfo rest k.2 sockfd
        (t.1, t.2.1, call :: t.2.2)
      else
        (sockfd, k.2, [call])

/-- Plain `mqtt_pal_sockopen` (lines 145-180): returned descriptor, final world
state, `connect` calls made. -/
def mqtt_pal_sockopen {σ : Type} (W : Net σ) (s : σ) (addr port : String) :
    Int × σ × List ConnectCall :=
  -- int sockfd = -1; rv = getaddrinfo(addr, port, &hints, &servinfo);
  let g := W.getaddrinfo s addr port
  if g.1.1 ≠ 0 then
    (-1, g.2, [])
  else
    let t : Int × σ × List ConnectCall :=
      match g.1.2 with
      | [] => (-1, g.2, [])
      | servinfo :: rest => sockopenLoop W servinfo (servinfo :: rest) g.2 (-1)
    let s1 := W.freeaddrinfo t.2.1
    -- if (sockfd != -1) fcntl(sockfd, F_SETFL, fcntl(sockfd, F_GETFL) | O_NONBLOCK);
    let s2 := if t.1 ≠ -1 then W.set_nonblock s1 t.1 else s1
    (t.1, s2, t.2.2)

/-! ## Connection set-up, OpenSSL backend -/

/-- Value of `X509_V_OK` in OpenSSL's `x509_vfy.h`. -/
def X509_V_OK : Int := 0

/-- The ways a call of the OpenSSL `mqtt_pal_sockopen` ends: `return bio`,
`return NULL`, or `exit(code)`, which ends the process without returning. -/
inductive OpenResult where
  | handle
  | null
  | exited (code : Int)
deriving DecidableEq, Repr

/-- The OpenSSL calls `mqtt_pal_sockopen` makes. `load_library` is lines 19-21,
`load_verify_locations` is `SSL_CTX_new` followed by
`SSL_CTX_load_verify_locations` (lines 25-28), `bio_setup` is lines 36-46. -/
structure Tls (σ : Type) where
  load_library : σ → σ
  load_verify_locations : σ → Int × σ
  bio_setup : σ → String → String → σ
  time : σ → Int × σ
  BIO_do_connect : σ → Int × σ
  SSL_get_verify_result : σ → Int

/-- The polling loop of line 49:
`while (BIO_do_connect(bio) <= 0 && (int)time(NULL) - start_time < 10);`. -/
def connectPoll {σ : Type} (W : Tls σ) (start_time : Int) : Nat → σ → Option σ
  | 0, _ => none
  | fuel + 1, s =>
    let r := W.BIO_do_connect s
    if r.1 ≤ 0 then
      let t := W.time r.2
      if toInt32 t.1 - start_time < 10 then connectPoll W start_time fuel t.2 else some t.2
    else
      some r.2

/-- Lines 57-64: the certificate check that follows a completed handshake. -/
def verifyGate {σ : Type} (W : Tls σ) (s : σ) : OpenResult :=
  if W.SSL_get_verify_result s ≠ X509_V_OK then OpenResult.exited 1 else OpenResult.handle

/-- OpenSSL `mqtt_pal_sockopen` (lines 17-65). `loaded` is the global
`openssl_loaded`; the result carries its new value and the final world state. -/
def ssl_mqtt_pal_sockopen {σ : Type} (W : Tls σ) (fuel : Nat) (loaded : Bool) (s : σ)
    (addr port : String) : Option (OpenResult × Bool × σ) :=
  let s1 := if !loaded then W.load_library s else s
  let v := W.load_verify_locations s1
  if v.1 = 0 then
    some (OpenResult.exited 1, true, v.2)
  else
    let s2 := W.bio_setup v.2 addr port
    -- int start_time = time(NULL);
    let t0 := W.time s2
    match connectPoll W (toInt32 t0.1) fuel t0.2 with
    | none => none
    | some s3 =>
      let r := W.BIO_do_connect s3
      if r.1 ≤ 0 then
        some (OpenResult.null, true, r.2)
      else
        some (verifyGate W r.2, true, r.2)

/-! ## Scripted transports

A transport whose successive outcomes are read off a list, one per call. -/

/-- Plain socket whose `send` / `recv` outcomes `(result, errno)` are the
successive entries of the state; an exhausted script answers `(0, 0)`. -/
def scriptSocket : Socket (List (Int × Int)) where
  send := fun s _ _ _ =>
    match s with
    | [] => ((0, 0), [])
    | o :: rest => (o, rest)
  recv := fun s _ _ _ =>
    match s with
    | [] => ((0, 0), [])
    | o :: rest => (o, rest)

/-- State of a scripted BIO: the retry flags the last operation left and the
outcomes `(result, should_retry, should_read)` of the operations to come. -/
structure BioScript where
  retry : Bool
  read : Bool
  rest : List (Int × Bool × Bool)
deriving DecidableEq, Repr

/-- One scripted BIO operation. -/
def BioScript.next (s : BioScript) : Int × BioScript :=
  match s.rest with
  | [] => (0, ⟨false, false, []⟩)
  | o :: rest => (o.1, ⟨o.2.1, o.2.2, rest⟩)

/-- BIO whose outcomes are read off the script in the state. -/
def scriptBio : Bio BioScript where
  BIO_write := fun s _ _ => s.next
  BIO_read := fun s _ _ => s.next
  BIO_should_retry := fun s => s.retry
  BIO_should_read := fun s => s.read

/-! ## A small simulated network

Descriptors are handed out in increasing order; `connect` succeeds exactly for
the endpoints `up` accepts, and the state records the connections made. -/

/-- State of the simulated network. -/
structure SimState where
  nextFd : Int
  conns : List (Int × Nat)
  nonblock : List Int
deriving DecidableEq, Repr

/-- Simulated network: `dns` is the resolver, `up` tells which endpoints accept
a connection. -/
def simNet (dns : String → String → Option (List AddrInfo)) (up : Nat → Bool) : Net SimState where
  getaddrinfo := fun s a p =>
    match dns a p with
    | none => ((-2, []), s)
    | some l => ((0, l), s)
  socket := fun s _ _ _ => (s.nextFd, { s with nextFd := s.nextFd + 1 })
  connect := fun s fd a =>
    if up a then (0, { s with conns := (fd, a) :: s.conns }) else (-1, s)
  freeaddrinfo := fun s => s
  set_nonblock := fun s fd => { s with nonblock := fd :: s.nonblock }

/-! ## Specification vocabulary -/

/-- The bytes of `B` a write call accepted: `ret` bytes from offset `off`. -/
def chunk {α : Type} (B : List α) (c : IoCall) : List α :=
  (B.drop c.off).take c.ret.toNat

/-- The bytes handed to the transport by a sequence of write calls, in order. -/
def delivered {α : Type} (B : List α) : List IoCall → List α
  | [] => []
  | c :: cs => chunk B c ++ delivered B cs

/-- Every call of the list starts at the sum of the counts accepted by the calls
before it (`acc` for the first) and asks for `req acc` bytes there. -/
def Contiguous (req : Nat → Int) : Nat → List IoCall → Prop
  | _, [] => True
  | acc, c :: cs => c.off = acc ∧ c.req = req acc ∧ Contiguous req (acc + c.ret.toNat) cs

/-- The count the plain `mqtt_pal_sendall` passes at offset `acc`: all the rest. -/
def plainReq (len : Nat) (acc : Nat) : Int := ((len - acc : Nat) : Int)

/-- The count the OpenSSL `mqtt_pal_sendall` passes at offset `acc`: the rest,
converted to `int`. -/
def sslReq (len : Nat) (acc : Nat) : Int := toInt32 ((len - acc : Nat) : Int)

/-- Socket that accepts at most `k` bytes per `send`, and for which `recv`
finds nothing ready. -/
def cappedSocket (k : Nat) : Socket Unit where
  send := fun s _ n _ => ((((min n k : Nat) : Int), 0), s)
  recv := fun s _ _ _ => ((-1, 11), s)

/-- BIO that accepts at most `k` bytes per `BIO_write` and never reads. -/
def cappedBio (k : Int) : Bio Unit where
  BIO_write := fun s _ n => (min n k, s)
  BIO_read := fun s _ _ => (0, s)
  BIO_should_retry := fun _ => false
  BIO_should_read := fun _ => true

/-- Values used in the examples: an error code in the style of `mqtt.h` and
the Linux `errno` numbers. -/
def linuxConsts : Consts := ⟨-2147483633, 11, 11⟩

/-- Socket whose first `send` accepts at most 2 bytes and whose later ones fail
with `EPIPE`; the state counts the calls. -/
def flakySocket : Socket Nat where
  send := fun s _ n _ =>
    if s = 0 then ((((min n 2 : Nat) : Int), 0), 1) else ((-1, 32), s + 1)
  recv := fun s _ _ _ => ((-1, 104), s + 1)

/-- Socket with `s` bytes pending: `recv` hands over as many of them as fit the
request, and reports `EAGAIN` (11) once none is left. -/
def drainSocket : Socket Nat where
  send := fun s _ _ _ => ((-1, 32), s)
  recv := fun s _ n _ =>
    if s = 0 then ((-1, 11), 0) else ((((min s n : Nat) : Int), 0), s - min s n)

/-- BIO with `s` bytes pending: `BIO_read` hands over as many of them as fit the
request; the session asks for a retry, and to read again, once none is left. -/
def drainBio : Bio Nat where
  BIO_write := fun s _ _ => (-1, s)
  BIO_read := fun s _ n =>
    if s = 0 ∨ n ≤ 0 then (-1, 0) else (min (s : Int) n, s - (min (s : Int) n).toNat)
  BIO_should_retry := fun s => s = 0
  BIO_should_read := fun s => s = 0

/-- Script of successful reads: sizes `p.1` with whatever `errno` value `p.2`
was left over. -/
def posReads (pre : List (Nat × Int)) : List (Int × Int) :=
  pre.map (fun p => ((p.1 : Int), p.2))

/-- Sum of the sizes of a list of successful reads. -/
def total (pre : List (Nat × Int)) : Nat := (pre.map Prod.fst).sum

/-- Simulated OpenSSL session: the handshake completes at the third
`BIO_do_connect`, the clock stands still, and certificate verification yields
`verify`. The state counts the failed connection attempts. -/
def simTls (verify : Int) : Tls Nat where
  load_library := fun s => s
  load_verify_locations := fun s => (1, s)
  bio_setup := fun s _ _ => s
  time := fun s => (1700000000, s)
  BIO_do_connect := fun s => if s < 2 then (-1, s + 1) else (1, s)
  SSL_get_verify_result := fun _ => verify

/-- Two resolved endpoints: endpoint 1 (IPv6) and endpoint 2 (IPv4). -/
def twoCandidates : List AddrInfo := [⟨10, 1, 6, 1⟩, ⟨2, 1, 6, 2⟩]

/-- Initial state of the simulated network: descriptors start at 3. -/
def simStart : SimState := ⟨3, [], []⟩

/-! ## Lemmas on the machine-integer conversions -/

theorem toSsize_of_lt (n : Nat) (h : n < 2 ^ 63) : toSsize n = (n : Int) := by
  unfold toSsize; omega

theorem toSsize_le (n : Nat) : toSsize n ≤ (n : Int) := by
  unfold toSsize; omega

theorem toInt32_le (z : Int) (h : 0 ≤ z) : toInt32 z ≤ z := by
  unfold toInt32; omega

theorem toInt32_of_lt (z : Int) (h0 : 0 ≤ z) (h : z < 2 ^ 31) : toInt32 z = z := by
  unfold toInt32; omega

theorem Run.after_eq_some {σ : Type} {c : IoCall} {x : Run σ} {r : Int} {s : σ}
    {tr : List IoCall} (h : Run.after c x = some (r, s, tr)) :
    ∃ tr0, x = some (r, s, tr0) ∧ tr = c :: tr0 := by
  cases x with
  | none => simp [Run.after] at h
  | some v =>
    obtain ⟨r0, s0, t0⟩ := v
    simp only [Run.after, Option.some.injEq, Prod.mk.injEq] at h
    obtain ⟨h1, h2, h3⟩ := h
    exact ⟨t0, by rw [h1, h2], h3.symm⟩

/-! ## `mqtt_pal_sendall` -/

theorem take_drop_append_drop {α : Type} (B : List α) (a n : Nat) :
    (B.drop a).take n ++ B.drop (a + n) = B.drop a := by
  have h : B.drop (a + n) = (B.drop a).drop n := by
    rw [List.drop_drop]
  rw [h, List.take_append_drop]

/-- Plain loop, from any offset: when every write accepts between 1 and the
requested count, the loop returns `len` having handed over `B` from `sent` on. -/
theorem sendallLoop_delivers {α σ : Type} (c : Consts) (W : Socket σ) (B : List α) (flags : Int)
    (hlen : B.length < 2 ^ 64)
    (hW : ∀ s off n fl, 1 ≤ n →
      1 ≤ (W.send s off n fl).1.1 ∧ (W.send s off n fl).1.1 ≤ (n : Int)) :
    ∀ (fuel : Nat) (s : σ) (sent : Nat), sent ≤ B.length → B.length - sent < fuel →
      ∃ s1 tr, sendallLoop c W B.length flags fuel s sent = some (toSsize B.length, s1, tr) ∧
        delivered B tr = B.drop sent ∧ Contiguous (plainReq B.length) sent tr := by
  intro fuel
  induction fuel with
  | zero => intro s sent _ h; omega
  | succ fuel ih =>
    intro s sent hle hfuel
    unfold sendallLoop
    by_cases hlt : sent < B.length
    · obtain ⟨h1, h2⟩ := hW s sent (B.length - sent) flags (by omega)
      have hnot : ¬ (W.send s sent (B.length - sent) flags).1.1 < 1 := by omega
      have hsz : (sent + toSize (W.send s sent (B.length - sent) flags).1.1) % 2 ^ 64
          = sent + (W.send s sent (B.length - sent) flags).1.1.toNat := by
        unfold toSize; omega
      simp only [hlt, hnot, if_true, if_false, hsz]
      obtain ⟨s1, tr, hrun, hdel, hcont⟩ :=
        ih (W.send s sent (B.length - sent) flags).2
          (sent + (W.send s sent (B.length - sent) flags).1.1.toNat) (by omega) (by omega)
      refine ⟨s1, ⟨sent, ((B.length - sent : Nat) : Int),
        (W.send s sent (B.length - sent) flags).1.1⟩ :: tr, ?_, ?_, ?_⟩
      · rw [hrun]; rfl
      · simp only [delivered, chunk, hdel]
        exact take_drop_append_drop B sent _
      · exact ⟨rfl, rfl, hcont⟩
    · have hs : sent = B.length := by omega
      simp only [hlt, if_false]
      refine ⟨s, [], by rw [hs], ?_, trivial⟩
      simp [delivered, hs]

/-- Plain loop, from any offset: when no write accepts more than requested, a
returned value is the error code or the (converted) length. -/
theorem sendallLoop_result {σ : Type} (c : Consts) (W : Socket σ) (len : Nat) (flags : Int)
    (hlen : len < 2 ^ 64)
    (hW : ∀ s off n fl, 1 ≤ n → (W.send s off n fl).1.1 ≤ (n : Int)) :
    ∀ (fuel : Nat) (s : σ) (sent : Nat) (r : Int) (s1 : σ) (tr : List IoCall), sent ≤ len →
      sendallLoop c W len flags fuel s sent = some (r, s1, tr) →
      r = toSsize len ∨ r = c.MQTT_ERROR_SOCKET_ERROR := by
  intro fuel
  induction fuel with
  | zero => intro s sent r s1 tr _ h; simp [sendallLoop] at h
  | succ fuel ih =>
    intro s sent r s1 tr hle hrun
    unfold sendallLoop at hrun
    by_cases hlt : sent < len
    · have h2 := hW s sent (len - sent) flags (by omega)
      simp only [hlt, if_true] at hrun
      by_cases herr : (W.send s sent (len - sent) flags).1.1 < 1
      · simp only [herr, if_true, Option.some.injEq, Prod.mk.injEq] at hrun
        exact Or.inr hrun.1.symm
      · simp only [herr, if_false] at hrun
        obtain ⟨tr0, hrun0, _⟩ := Run.after_eq_some hrun
        have hsz : (sent + toSize (W.send s sent (len - sent) flags).1.1) % 2 ^ 64 ≤ len := by
          unfold toSize; omega
        exact ih _ _ r s1 tr0 hsz hrun0
    · have hs : sent = len := by omega
      simp only [hlt, if_false, Option.some.injEq, Prod.mk.injEq] at hrun
      exact Or.inl (by rw [← hrun.1, hs])

/-- OpenSSL loop, from any offset: when every write accepts between 1 and the
requested count and the length fits an `int`, the loop returns `len` having
handed over `B` from `sent` on. -/
theorem sslSendallLoop_delivers {α σ : Type} (c : Consts) (W : Bio σ) (B : List α)
    (hlen : B.length < 2 ^ 31)
    (hW : ∀ s off n, 1 ≤ n → 1 ≤ (W.BIO_write s off n).1 ∧ (W.BIO_write s off n).1 ≤ n) :
    ∀ (fuel : Nat) (s : σ) (sent : Nat), sent ≤ B.length → B.length - sent < fuel →
      ∃ s1 tr, sslSendallLoop c W B.length fuel s sent = some (toSsize B.length, s1, tr) ∧
        delivered B tr = B.drop sent ∧ Contiguous (sslReq B.length) sent tr := by
  intro fuel
  induction fuel with
  | zero => intro s sent _ h; omega
  | succ fuel ih =>
    intro s sent hle hfuel
    unfold sslSendallLoop
    by_cases hlt : sent < B.length
    · have hreq : toInt32 ((B.length - sent : Nat) : Int) = ((B.length - sent : Nat) : Int) :=
        toInt32_of_lt _ (by omega) (by omega)
      obtain ⟨h1, h2⟩ := hW s sent (toInt32 ((B.length - sent : Nat) : Int)) (by rw [hreq]; omega)
      have hpos : (W.BIO_write s sent (toInt32 ((B.length - sent : Nat) : Int))).1 > 0 := by omega
      have h3 : (W.BIO_write s sent (toInt32 ((B.length - sent : Nat) : Int))).1
          ≤ ((B.length - sent : Nat) : Int) := le_of_le_of_eq h2 hreq
      have hsz : (sent + toSize (W.BIO_write s sent (toInt32 ((B.length - sent : Nat) : Int))).1)
            % 2 ^ 64
          = sent + (W.BIO_write s sent (toInt32 ((B.length - sent : Nat) : Int))).1.toNat := by
        unfold toSize; omega
      simp only [hlt, hpos, if_true, hsz]
      obtain ⟨s1, tr, hrun, hdel, hcont⟩ :=
        ih (W.BIO_write s sent (toInt32 ((B.length - sent : Nat) : Int))).2
          (sent + (W.BIO_write s sent (toInt32 ((B.length - sent : Nat) : Int))).1.toNat)
          (by omega) (by omega)
      refine ⟨s1, ⟨sent, toInt32 ((B.length - sent : Nat) : Int),
        (W.BIO_write s sent (toInt32 ((B.length - sent : Nat) : Int))).1⟩ :: tr, ?_, ?_, ?_⟩
      · rw [hrun]; rfl
      · simp only [delivered, chunk, hdel]
        exact take_drop_append_drop B sent _
      · exact ⟨rfl, rfl, hcont⟩
    · have hs : sent = B.length := by omega
      simp only [hlt, if_false]
      refine ⟨s, [], by rw [hs], ?_, trivial⟩
      simp [delivered, hs]

/-- OpenSSL loop, from any offset: when no write accepts more than requested, a
returned value is the error code or the (converted) length. -/
theorem sslSendallLoop_result {σ : Type} (c : Consts) (W : Bio σ) (len : Nat)
    (hlen : len < 2 ^ 64)
    (hW : ∀ s off n, 0 < (W.BIO_write s off n).1 → (W.BIO_write s off n).1 ≤ n) :
    ∀ (fuel : Nat) (s : σ) (sent : Nat) (r : Int) (s1 : σ) (tr : List IoCall), sent ≤ len →
      sslSendallLoop c W len fuel s sent = some (r, s1, tr) →
      r = toSsize len ∨ r = c.MQTT_ERROR_SOCKET_ERROR := by
  intro fuel
  induction fuel with
  | zero => intro s sent r s1 tr _ h; simp [sslSendallLoop] at h
  | succ fuel ih =>
    intro s sent r s1 tr hle hrun
    unfold sslSendallLoop at hrun
    by_cases hlt : sent < len
    · simp only [hlt, if_true] at hrun
      by_cases hpos : (W.BIO_write s sent (toInt32 ((len - sent : Nat) : Int))).1 > 0
      · have h2 := hW s sent (toInt32 ((len - sent : Nat) : Int)) hpos
        have h3 := toInt32_le ((len - sent : Nat) : Int) (by omega)
        simp only [hpos, if_true] at hrun
        obtain ⟨tr0, hrun0, _⟩ := Run.after_eq_some hrun
        have hsz : (sent + toSize (W.BIO_write s sent (toInt32 ((len - sent : Nat) : Int))).1)
            % 2 ^ 64 ≤ len := by
          unfold toSize; omega
        exact ih _ _ r s1 tr0 hsz hrun0
      · simp only [hpos, if_false] at hrun
        split at hrun
        · simp only [Option.some.injEq, Prod.mk.injEq] at hrun
          exact Or.inr hrun.1.symm
        · obtain ⟨tr0, hrun0, _⟩ := Run.after_eq_some hrun
          exact ih _ _ r s1 tr0 hle hrun0
    · have hs : sent = len := by omega
      simp only [hlt, if_false, Option.some.injEq, Prod.mk.injEq] at hrun
      exact Or.inl (by rw [← hrun.1, hs])

/-- OpenSSL loop, from any offset: when no write accepts more than requested, a
run that returns something else than the error code has handed over `B` from
`sent` on, each call starting where the accepted bytes end. -/
theorem sslSendallLoop_success {α σ : Type} (c : Consts) (W : Bio σ) (B : List α)
    (hlen : B.length < 2 ^ 64)
    (hW : ∀ s off n, 0 < (W.BIO_write s off n).1 → (W.BIO_write s off n).1 ≤ n) :
    ∀ (fuel : Nat) (s : σ) (sent : Nat) (r : Int) (s1 : σ) (tr : List IoCall),
      sent ≤ B.length → sslSendallLoop c W B.length fuel s sent = some (r, s1, tr) →
      r ≠ c.MQTT_ERROR_SOCKET_ERROR →
      delivered B tr = B.drop sent ∧ Contiguous (sslReq B.length) sent tr := by
  intro fuel
  induction fuel with
  | zero => intro s sent r s1 tr _ h; simp [sslSendallLoop] at h
  | succ fuel ih =>
    intro s sent r s1 tr hle hrun hok
    unfold sslSendallLoop at hrun
    by_cases hlt : sent < B.length
    · simp only [hlt, if_true] at hrun
      by_cases hpos : (W.BIO_write s sent (toInt32 ((B.length - sent : Nat) : Int))).1 > 0
      · have h2 := hW s sent (toInt32 ((B.length - sent : Nat) : Int)) hpos
        have h3 := toInt32_le ((B.length - sent : Nat) : Int) (by omega)
        simp only [hpos, if_true] at hrun
        obtain ⟨tr0, hrun0, htr⟩ := Run.after_eq_some hrun
        have hsz : (sent + toSize (W.BIO_write s sent (toInt32 ((B.length - sent : Nat) : Int))).1)
              % 2 ^ 64
            = sent + (W.BIO_write s sent (toInt32 ((B.length - sent : Nat) : Int))).1.toNat := by
          unfold toSize; omega
        rw [hsz] at hrun0
        obtain ⟨hdel, hcont⟩ := ih _ _ r s1 tr0 (by omega) hrun0 hok
        subst htr
        refine ⟨?_, rfl, rfl, hcont⟩
        simp only [delivered, chunk, hdel]
        exact take_drop_append_drop B sent _
      · simp only [hpos, if_false] at hrun
        split at hrun
        · simp only [Option.some.injEq, Prod.mk.injEq] at hrun
          exact absurd hrun.1.symm hok
        · obtain ⟨tr0, hrun0, htr⟩ := Run.after_eq_some hrun
          obtain ⟨hdel, hcont⟩ := ih _ _ r s1 tr0 hle hrun0 hok
          have hz : (W.BIO_write s sent (toInt32 ((B.length - sent : Nat) : Int))).1.toNat = 0 := by
            omega
          subst htr
          refine ⟨?_, rfl, rfl, ?_⟩
          · simp only [delivered, chunk, hz, List.take_zero, List.nil_append, hdel]
          · simpa only [hz, Nat.add_zero] using hcont
    · have hs : sent = B.length := by omega
      simp only [hlt, if_false, Option.some.injEq, Prod.mk.injEq] at hrun
      obtain ⟨_, _, htr⟩ := hrun
      subst htr
      refine ⟨?_, trivial⟩
      simp [delivered, hs]

/-- C1: for every buffer `B` (of a length that fits `ssize_t`) and every
transport whose write primitive accepts, on each attempt, between 1 and the
requested number of bytes, `mqtt_pal_sendall` succeeds and has handed the
transport exactly the bytes of `B`, in order: every attempt starts at the sum of
the counts accepted before it and the accepted chunks concatenate to `B`. Plain
backend: for every buffer. OpenSSL backend: for every buffer whose length fits
the `int` count of `BIO_write`; for longer ones, whenever the call returns
something else than the error code (given that a write asked for no bytes
accepts none). -/
theorem mqtt_pal_sendall_delivers_buffer {α σ τ : Type} (c : Consts) (B : List α)
    (W : Socket σ) (V : Bio τ) (flags : Int)
    (hlen : B.length < 2 ^ 63)
    (hW : ∀ s off n fl, 1 ≤ n →
      1 ≤ (W.send s off n fl).1.1 ∧ (W.send s off n fl).1.1 ≤ (n : Int))
    (hV : ∀ s off n, 1 ≤ n → 1 ≤ (V.BIO_write s off n).1 ∧ (V.BIO_write s off n).1 ≤ n) :
    (∀ fuel s, B.length < fuel →
      ∃ s1 tr, mqtt_pal_sendall c W fuel s B.length flags = some ((B.length : Int), s1, tr) ∧
        delivered B tr = B ∧ Contiguous (plainReq B.length) 0 tr) ∧
    (B.length < 2 ^ 31 → ∀ fuel t, B.length < fuel →
      ∃ t1 tr, ssl_mqtt_pal_sendall c V fuel t B.length = some ((B.length : Int), t1, tr) ∧
        delivered B tr = B ∧ Contiguous (sslReq B.length) 0 tr) ∧
    ((∀ s off n, n < 1 → (V.BIO_write s off n).1 ≤ 0) →
      ∀ fuel t r t1 tr, ssl_mqtt_pal_sendall c V fuel t B.length = some (r, t1, tr) →
        r ≠ c.MQTT_ERROR_SOCKET_ERROR →
        r = (B.length : Int) ∧ delivered B tr = B ∧ Contiguous (sslReq B.length) 0 tr) := by
  refine ⟨?_, ?_, ?_⟩
  · intro fuel s hfuel
    obtain ⟨s1, tr, hrun, hdel, hcont⟩ :=
      sendallLoop_delivers c W B flags (by omega) hW fuel s 0 (Nat.zero_le _) (by omega)
    rw [toSsize_of_lt _ hlen] at hrun
    exact ⟨s1, tr, hrun, by simpa using hdel, hcont⟩
  · intro h31 fuel t hfuel
    obtain ⟨t1, tr, hrun, hdel, hcont⟩ :=
      sslSendallLoop_delivers c V B h31 hV fuel t 0 (Nat.zero_le _) (by omega)
    rw [toSsize_of_lt _ hlen] at hrun
    exact ⟨t1, tr, hrun, by simpa using hdel, hcont⟩
  · intro h0 fuel t r t1 tr hrun hok
    have hV2 : ∀ s off n, 0 < (V.BIO_write s off n).1 → (V.BIO_write s off n).1 ≤ n := by
      intro s off n hpos
      by_cases hn : 1 ≤ n
      · exact (hV s off n hn).2
      · have := h0 s off n (by omega)
        omega
    obtain ⟨hdel, hcont⟩ :=
      sslSendallLoop_success c V B (by omega) hV2 fuel t 0 r t1 tr (Nat.zero_le _) hrun hok
    refine ⟨?_, by simpa using hdel, hcont⟩
    rcases sslSendallLoop_result c V B.length (by omega) hV2 fuel t 0 r t1 tr (Nat.zero_le _) hrun
      with h | h
    · rw [h, toSsize_of_lt _ hlen]
    · exact absurd h hok

/-- Witness for C1: a 10000-byte buffer over a transport that accepts 512 bytes
per attempt is delivered whole and in order, in both backends. -/
theorem mqtt_pal_sendall_delivers_buffer_witness :
    (∃ s1 tr, mqtt_pal_sendall linuxConsts (cappedSocket 512) 10001 ()
        (List.replicate 10000 (7 : Nat)).length 0
        = some (((List.replicate 10000 (7 : Nat)).length : Int), s1, tr) ∧
      delivered (List.replicate 10000 (7 : Nat)) tr = List.replicate 10000 (7 : Nat) ∧
      Contiguous (plainReq (List.replicate 10000 (7 : Nat)).length) 0 tr) ∧
    (∃ t1 tr, ssl_mqtt_pal_sendall linuxConsts (cappedBio 512) 10001 ()
        (List.replicate 10000 (7 : Nat)).length
        = some (((List.replicate 10000 (7 : Nat)).length : Int), t1, tr) ∧
      delivered (List.replicate 10000 (7 : Nat)) tr = List.replicate 10000 (7 : Nat) ∧
      Contiguous (sslReq (List.replicate 10000 (7 : Nat)).length) 0 tr) :=
  have h := mqtt_pal_sendall_delivers_buffer linuxConsts (List.replicate 10000 (7 : Nat))
    (cappedSocket 512) (cappedBio 512) 0
    (by rw [List.length_replicate]; norm_num)
    (by intro s off n fl h; simp only [cappedSocket]; omega)
    (by intro s off n h; simp only [cappedBio]; omega)
  ⟨h.1 10001 () (by rw [List.length_replicate]; norm_num),
   h.2.1 (by rw [List.length_replicate]; norm_num) 10001 ()
     (by rw [List.length_replicate]; norm_num)⟩

/-- C2: for every buffer length (that fits `ssize_t`) and every write primitive
whose successful attempts accept at most the requested count, whenever
`mqtt_pal_sendall` returns, in either backend, its result is exactly `len` or
`MQTT_ERROR_SOCKET_ERROR`; no partial count is ever reported. -/
theorem mqtt_pal_sendall_len_or_error {σ τ : Type} (c : Consts) (W : Socket σ) (V : Bio τ)
    (len : Nat) (flags : Int)
    (hlen : len < 2 ^ 63)
    (hW : ∀ s off n fl, 1 ≤ n → (W.send s off n fl).1.1 ≤ (n : Int))
    (hV : ∀ s off n, 0 < (V.BIO_write s off n).1 → (V.BIO_write s off n).1 ≤ n) :
    (∀ fuel s r s1 tr, mqtt_pal_sendall c W fuel s len flags = some (r, s1, tr) →
      r = (len : Int) ∨ r = c.MQTT_ERROR_SOCKET_ERROR) ∧
    (∀ fuel t r t1 tr, ssl_mqtt_pal_sendall c V fuel t len = some (r, t1, tr) →
      r = (len : Int) ∨ r = c.MQTT_ERROR_SOCKET_ERROR) := by
  constructor
  · intro fuel s r s1 tr hrun
    have h := sendallLoop_result c W len flags (by omega) hW fuel s 0 r s1 tr (Nat.zero_le _) hrun
    rwa [toSsize_of_lt _ hlen] at h
  · intro fuel t r t1 tr hrun
    have h := sslSendallLoop_result c V len (by omega) hV fuel t 0 r t1 tr (Nat.zero_le _) hrun
    rwa [toSsize_of_lt _ hlen] at h

/-- Witness for C2: a 10-byte send whose first attempt accepts 2 bytes and whose
second fails returns the error code, not 2. -/
theorem mqtt_pal_sendall_len_or_error_witness :
    mqtt_pal_sendall linuxConsts flakySocket 5 0 10 0
        = some (-2147483633, 2, [⟨0, 10, 2⟩, ⟨2, 8, -1⟩]) ∧
      ((-2147483633 : Int) = ((10 : Nat) : Int) ∨
        (-2147483633 : Int) = linuxConsts.MQTT_ERROR_SOCKET_ERROR) :=
  ⟨by decide,
   (mqtt_pal_sendall_len_or_error linuxConsts flakySocket (cappedBio 2) 10 0 (by decide)
      (by intro s off n fl h; simp only [flakySocket]; split
          · show ((min n 2 : Nat) : Int) ≤ (n : Int)
            omega
          · show (-1 : Int) ≤ (n : Int)
            omega)
      (by intro s off n h; simp only [cappedBio]; omega)).1 5 0 (-2147483633) 2
      [⟨0, 10, 2⟩, ⟨2, 8, -1⟩] (by decide)⟩

/-! ## `mqtt_pal_recvall` -/

/-- Plain loop: when `recv` never returns more than it was asked for and the
bytes filled plus the remaining capacity are within `cap`, every call stays
within `cap` and so does a returned count. -/
theorem recvallLoop_bounds {σ : Type} (c : Consts) (W : Socket σ) (flags : Int) (cap : Nat)
    (hW : ∀ s off n fl, (W.recv s off n fl).1.1 ≤ (n : Int)) :
    ∀ (fuel : Nat) (s : σ) (off bufsz : Nat) (r : Int) (s1 : σ) (tr : List IoCall),
      off + bufsz ≤ cap → recvallLoop c W flags fuel s off bufsz = some (r, s1, tr) →
      (r = c.MQTT_ERROR_SOCKET_ERROR ∨ r ≤ (cap : Int)) ∧
        ∀ call ∈ tr, 0 ≤ call.req ∧ (call.off : Int) + call.req ≤ (cap : Int) := by
  intro fuel
  induction fuel with
  | zero => intro s off bufsz r s1 tr _ h; simp [recvallLoop] at h
  | succ fuel ih =>
    intro s off bufsz r s1 tr hinv hrun
    unfold recvallLoop at hrun
    have hle := hW s off bufsz flags
    have hcall : ∀ rv : Int, 0 ≤ (IoCall.mk off (bufsz : Int) rv).req ∧
        ((IoCall.mk off (bufsz : Int) rv).off : Int) + (IoCall.mk off (bufsz : Int) rv).req
          ≤ (cap : Int) := by
      intro rv
      show 0 ≤ (bufsz : Int) ∧ (off : Int) + (bufsz : Int) ≤ (cap : Int)
      omega
    by_cases hpos : (W.recv s off bufsz flags).1.1 > 0
    · simp only [hpos, if_true] at hrun
      obtain ⟨tr0, hrun0, htr⟩ := Run.after_eq_some hrun
      have hinv2 : (off + toSize (W.recv s off bufsz flags).1.1) % 2 ^ 64
          + toSize ((bufsz : Int) - (W.recv s off bufsz flags).1.1) ≤ cap := by
        unfold toSize; omega
      obtain ⟨hr, hcalls⟩ := ih _ _ _ r s1 tr0 hinv2 hrun0
      subst htr
      refine ⟨hr, ?_⟩
      intro call hmem
      rcases List.mem_cons.mp hmem with h | h
      · rw [h]; exact hcall _
      · exact hcalls call h
    · simp only [hpos, if_false] at hrun
      have hoff := toSsize_le off
      split at hrun
      · simp only [Option.some.injEq, Prod.mk.injEq] at hrun
        obtain ⟨h1, _, h3⟩ := hrun
        subst h3
        refine ⟨Or.inl h1.symm, ?_⟩
        intro call hmem
        rw [List.mem_singleton.mp hmem]; exact hcall _
      · simp only [Option.some.injEq, Prod.mk.injEq] at hrun
        obtain ⟨h1, _, h3⟩ := hrun
        subst h3
        refine ⟨Or.inr (by omega), ?_⟩
        intro call hmem
        rw [List.mem_singleton.mp hmem]; exact hcall _

/-- OpenSSL loop: when `BIO_read` never returns more than it was asked for and
the bytes filled plus the remaining capacity are within `cap`, every call stays
within `cap` and so does a returned count. -/
theorem sslRecvallLoop_bounds {σ : Type} (c : Consts) (W : Bio σ) (cap : Nat)
    (hW : ∀ s off n, 0 < (W.BIO_read s off n).1 → (W.BIO_read s off n).1 ≤ n) :
    ∀ (fuel : Nat) (s : σ) (off bufsz : Nat) (r : Int) (s1 : σ) (tr : List IoCall),
      off + bufsz ≤ cap → sslRecvallLoop c W fuel s off bufsz = some (r, s1, tr) →
      (r = c.MQTT_ERROR_SOCKET_ERROR ∨ r ≤ (cap : Int)) ∧
        ∀ call ∈ tr, (call.off : Int) + call.req ≤ (cap : Int) := by
  intro fuel
  induction fuel with
  | zero => intro s off bufsz r s1 tr _ h; simp [sslRecvallLoop] at h
  | succ fuel ih =>
    intro s off bufsz r s1 tr hinv hrun
    unfold sslRecvallLoop at hrun
    have h32 := toInt32_le (bufsz : Int) (by omega)
    have hcall : ∀ rv : Int,
        ((IoCall.mk off (toInt32 (bufsz : Int)) rv).off : Int)
          + (IoCall.mk off (toInt32 (bufsz : Int)) rv).req ≤ (cap : Int) := by
      intro rv
      show (off : Int) + toInt32 (bufsz : Int) ≤ (cap : Int)
      omega
    have hoff := toSsize_le off
    by_cases hpos : (W.BIO_read s off (toInt32 (bufsz : Int))).1 > 0
    · have hle := hW s off (toInt32 (bufsz : Int)) hpos
      have hinv2 : (off + toSize (W.BIO_read s off (toInt32 (bufsz : Int))).1) % 2 ^ 64
          + toSize ((bufsz : Int) - (W.BIO_read s off (toInt32 (bufsz : Int))).1) ≤ cap := by
        unfold toSize; omega
      have hoff1 := toSsize_le
        ((off + toSize (W.BIO_read s off (toInt32 (bufsz : Int))).1) % 2 ^ 64)
      simp only [hpos, if_true] at hrun
      split at hrun
      · obtain ⟨tr0, hrun0, htr⟩ := Run.after_eq_some hrun
        obtain ⟨hr, hcalls⟩ := ih _ _ _ r s1 tr0 hinv2 hrun0
        subst htr
        refine ⟨hr, ?_⟩
        intro call hmem
        rcases List.mem_cons.mp hmem with h | h
        · rw [h]; exact hcall _
        · exact hcalls call h
      · simp only [Option.some.injEq, Prod.mk.injEq] at hrun
        obtain ⟨h1, _, h3⟩ := hrun
        subst h3
        refine ⟨Or.inr (by omega), ?_⟩
        intro call hmem
        rw [List.mem_singleton.mp hmem]; exact hcall _
    · simp only [hpos, if_false] at hrun
      split at hrun
      · simp only [Option.some.injEq, Prod.mk.injEq] at hrun
        obtain ⟨h1, _, h3⟩ := hrun
        subst h3
        refine ⟨Or.inl h1.symm, ?_⟩
        intro call hmem
        rw [List.mem_singleton.mp hmem]; exact hcall _
      · split at hrun
        · obtain ⟨tr0, hrun0, htr⟩ := Run.after_eq_some hrun
          obtain ⟨hr, hcalls⟩ := ih _ _ _ r s1 tr0 hinv hrun0
          subst htr
          refine ⟨hr, ?_⟩
          intro call hmem
          rcases List.mem_cons.mp hmem with h | h
          · rw [h]; exact hcall _
          · exact hcalls call h
        · simp only [Option.some.injEq, Prod.mk.injEq] at hrun
          obtain ⟨h1, _, h3⟩ := hrun
          subst h3
          refine ⟨Or.inr (by omega), ?_⟩
          intro call hmem
          rw [List.mem_singleton.mp hmem]; exact hcall _

/-- Plain loop: when `recv` never returns more than it was asked for, the loop
returns within `bufsz + 1` calls, each asking for strictly less than the one
before. -/
theorem recvallLoop_terminates {σ : Type} (c : Consts) (W : Socket σ) (flags : Int)
    (hW : ∀ s off n fl, (W.recv s off n fl).1.1 ≤ (n : Int)) :
    ∀ (fuel : Nat) (s : σ) (off bufsz : Nat), bufsz < fuel →
      ∃ r s1 tr, recvallLoop c W flags fuel s off bufsz = some (r, s1, tr) ∧
        tr.length ≤ bufsz + 1 ∧ (∀ call ∈ tr, call.req ≤ (bufsz : Int)) ∧
        tr.Pairwise (fun a b => b.req < a.req) := by
  intro fuel
  induction fuel with
  | zero => intro s off bufsz h; omega
  | succ fuel ih =>
    intro s off bufsz hfuel
    unfold recvallLoop
    have hle := hW s off bufsz flags
    by_cases hpos : (W.recv s off bufsz flags).1.1 > 0
    · have hdec : toSize ((bufsz : Int) - (W.recv s off bufsz flags).1.1) < bufsz := by
        unfold toSize; omega
      obtain ⟨r, s1, tr, hrun, hlen, hreq, hpw⟩ :=
        ih (W.recv s off bufsz flags).2
          ((off + toSize (W.recv s off bufsz flags).1.1) % 2 ^ 64)
          (toSize ((bufsz : Int) - (W.recv s off bufsz flags).1.1)) (by omega)
      simp only [hpos, if_true, hrun, Run.after]
      refine ⟨r, s1, _, rfl, ?_, ?_, ?_⟩
      · simp only [List.length_cons]; omega
      · intro call hmem
        rcases List.mem_cons.mp hmem with h | h
        · rw [h]
        · have := hreq call h
          omega
      · refine List.pairwise_cons.mpr ⟨?_, hpw⟩
        intro call hmem
        have := hreq call hmem
        show call.req < (bufsz : Int)
        omega
    · simp only [hpos, if_false]
      split
      · refine ⟨_, _, _, rfl, by simp, ?_, List.pairwise_singleton _ _⟩
        intro call hmem
        rw [List.mem_singleton.mp hmem]
      · refine ⟨_, _, _, rfl, by simp, ?_, List.pairwise_singleton _ _⟩
        intro call hmem
        rw [List.mem_singleton.mp hmem]

/-- C5: for every capacity and every transport whose read primitive never
returns more bytes than it was asked for, whenever `mqtt_pal_recvall` returns,
in either backend, the value is the error code or a count of at most `bufsz`,
and at every read attempt the offset already filled plus the number of bytes
requested is at most `bufsz`. -/
theorem mqtt_pal_recvall_within_capacity {σ τ : Type} (c : Consts) (W : Socket σ) (V : Bio τ)
    (bufsz : Nat) (flags : Int)
    (hW : ∀ s off n fl, (W.recv s off n fl).1.1 ≤ (n : Int))
    (hV : ∀ s off n, 0 < (V.BIO_read s off n).1 → (V.BIO_read s off n).1 ≤ n) :
    (∀ fuel s r s1 tr, mqtt_pal_recvall c W fuel s bufsz flags = some (r, s1, tr) →
      (r = c.MQTT_ERROR_SOCKET_ERROR ∨ r ≤ (bufsz : Int)) ∧
        ∀ call ∈ tr, 0 ≤ call.req ∧ (call.off : Int) + call.req ≤ (bufsz : Int)) ∧
    (∀ fuel t r t1 tr, ssl_mqtt_pal_recvall c V fuel t bufsz = some (r, t1, tr) →
      (r = c.MQTT_ERROR_SOCKET_ERROR ∨ r ≤ (bufsz : Int)) ∧
        ∀ call ∈ tr, (call.off : Int) + call.req ≤ (bufsz : Int)) := by
  constructor
  · intro fuel s r s1 tr hrun
    exact recvallLoop_bounds c W flags bufsz hW fuel s 0 bufsz r s1 tr (by omega) hrun
  · intro fuel t r t1 tr hrun
    exact sslRecvallLoop_bounds c V bufsz hV fuel t 0 bufsz r t1 tr (by omega) hrun

/-- Witness for C5: 10 bytes pending and a 4-byte buffer; the call reads 4
bytes, then asks for 0 bytes at offset 4, and returns 4. -/
theorem mqtt_pal_recvall_within_capacity_witness :
    mqtt_pal_recvall linuxConsts drainSocket 5 10 4 0
        = some (4, 6, [⟨0, 4, 4⟩, ⟨4, 0, 0⟩]) ∧
      (((4 : Int) = linuxConsts.MQTT_ERROR_SOCKET_ERROR ∨ (4 : Int) ≤ ((4 : Nat) : Int)) ∧
        ∀ call ∈ [(⟨0, 4, 4⟩ : IoCall), ⟨4, 0, 0⟩],
          0 ≤ call.req ∧ (call.off : Int) + call.req ≤ ((4 : Nat) : Int)) :=
  ⟨by decide,
   (mqtt_pal_recvall_within_capacity linuxConsts drainSocket drainBio 4 0
      (by
        intro s off n fl; simp only [drainSocket]; split
        · show (-1 : Int) ≤ (n : Int)
          omega
        · show ((min s n : Nat) : Int) ≤ (n : Int)
          omega)
      (by
        intro s off n; simp only [drainBio]; split
        · intro h; exact absurd h (by decide)
        · intro _; exact min_le_right _ _)).1 5 10 4 6 [⟨0, 4, 4⟩, ⟨4, 0, 0⟩] (by decide)⟩

/-- C10: in the plain backend, for every capacity and every transport whose read
primitive never returns more than requested, `mqtt_pal_recvall` returns after at
most `bufsz + 1` read attempts, each asking for strictly less than the one
before. -/
theorem mqtt_pal_recvall_terminates {σ : Type} (c : Consts) (W : Socket σ)
    (bufsz : Nat) (flags : Int) (fuel : Nat) (s : σ)
    (hW : ∀ s off n fl, (W.recv s off n fl).1.1 ≤ (n : Int))
    (hfuel : bufsz < fuel) :
    ∃ r s1 tr, mqtt_pal_recvall c W fuel s bufsz flags = some (r, s1, tr) ∧
      tr.length ≤ bufsz + 1 ∧ tr.Pairwise (fun a b => b.req < a.req) := by
  obtain ⟨r, s1, tr, hrun, hlen, _, hpw⟩ :=
    recvallLoop_terminates c W flags hW fuel s 0 bufsz hfuel
  exact ⟨r, s1, tr, hrun, hlen, hpw⟩

/-- Witness for C10: capacity 4 with 10 bytes pending, fuel 5. -/
theorem mqtt_pal_recvall_terminates_witness :
    ∃ r s1 tr, mqtt_pal_recvall linuxConsts drainSocket 5 10 4 0 = some (r, s1, tr) ∧
      tr.length ≤ 4 + 1 ∧ tr.Pairwise (fun a b => b.req < a.req) :=
  mqtt_pal_recvall_terminates linuxConsts drainSocket 4 0 5 10
    (by
      intro s off n fl; simp only [drainSocket]; split
      · show (-1 : Int) ≤ (n : Int)
        omega
      · show ((min s n : Nat) : Int) ≤ (n : Int)
        omega)
    (by decide)

theorem scriptSocket_recv_cons (o : Int × Int) (rest : List (Int × Int)) (off n : Nat)
    (fl : Int) : scriptSocket.recv (o :: rest) off n fl = (o, rest) := rfl

theorem scriptBio_read_cons (f1 f2 : Bool) (o : Int × Bool × Bool)
    (rest : List (Int × Bool × Bool)) (off : Nat) (n : Int) :
    scriptBio.BIO_read ⟨f1, f2, o :: rest⟩ off n = (o.1, ⟨o.2.1, o.2.2, rest⟩) := rfl

theorem scriptBio_should_retry (s : BioScript) : scriptBio.BIO_should_retry s = s.retry := rfl

theorem scriptBio_should_read (s : BioScript) : scriptBio.BIO_should_read s = s.read := rfl

/-- Plain loop over a scripted socket: after the successful reads `pre`, a
not-ready outcome ends the loop with the number of bytes read, one call per
outcome, the rest of the script untouched. -/
theorem recvallLoop_script_drain (c : Consts) (flags : Int) (rv errno : Int)
    (rest : List (Int × Int)) (hrv : rv < 0)
    (herrno : errno = c.EAGAIN ∨ errno = c.EWOULDBLOCK) :
    ∀ (pre : List (Nat × Int)) (fuel off bufsz : Nat), (∀ p ∈ pre, 0 < p.1) →
      off + total pre < 2 ^ 63 → pre.length < fuel →
      ∃ tr, recvallLoop c scriptSocket flags fuel (posReads pre ++ (rv, errno) :: rest) off bufsz
          = some (((off + total pre : Nat) : Int), rest, tr) ∧ tr.length = pre.length + 1 := by
  intro pre
  induction pre with
  | nil =>
    intro fuel off bufsz _ hfit hfuel
    obtain ⟨f, rfl⟩ : ∃ f, fuel = f + 1 := ⟨fuel - 1, by simp at hfuel; omega⟩
    have h1 : ¬ rv > 0 := by omega
    have h2 : ¬ (rv < 0 ∧ errno ≠ c.EAGAIN ∧ errno ≠ c.EWOULDBLOCK) := by
      rintro ⟨_, ha, hb⟩
      rcases herrno with h | h
      · exact ha h
      · exact hb h
    simp only [total, List.map_nil, List.sum_nil, Nat.add_zero] at hfit
    refine ⟨[⟨off, (bufsz : Int), rv⟩], ?_, rfl⟩
    unfold recvallLoop
    simp only [posReads, List.map_nil, List.nil_append, scriptSocket_recv_cons, h1, h2,
      if_false, total, List.sum_nil, Nat.add_zero, toSsize_of_lt off hfit]
  | cons p pre ih =>
    intro fuel off bufsz hpos hfit hfuel
    obtain ⟨f, rfl⟩ : ∃ f, fuel = f + 1 := ⟨fuel - 1, by simp at hfuel; omega⟩
    have hp : 0 < p.1 := hpos p (List.mem_cons_self _ _)
    have h1 : ((p.1 : Nat) : Int) > 0 := by omega
    have htot : total (p :: pre) = p.1 + total pre := by
      simp [total]
    rw [htot] at hfit
    have hsz : (off + toSize ((p.1 : Nat) : Int)) % 2 ^ 64 = off + p.1 := by
      unfold toSize; omega
    obtain ⟨tr, hrun, hlen⟩ := ih f (off + p.1) (toSize ((bufsz : Int) - ((p.1 : Nat) : Int)))
      (fun q hq => hpos q (List.mem_cons_of_mem _ hq)) (by omega)
      (by simp at hfuel; omega)
    refine ⟨⟨off, (bufsz : Int), ((p.1 : Nat) : Int)⟩ :: tr, ?_, by simp [hlen]⟩
    unfold recvallLoop
    simp only [posReads, List.map_cons, List.cons_append, scriptSocket_recv_cons, h1,
      if_true, hsz]
    simp only [posReads] at hrun
    rw [hrun, htot]
    simp only [Run.after]
    congr 3
    omega

/-- Plain loop over a scripted socket: after the successful reads `pre`, a
failure that is not "nothing ready" ends the loop with the error code, one call
per outcome, the rest of the script untouched. -/
theorem recvallLoop_script_error (c : Consts) (flags : Int) (rv errno : Int)
    (rest : List (Int × Int)) (hrv : rv < 0)
    (h1 : errno ≠ c.EAGAIN) (h2 : errno ≠ c.EWOULDBLOCK) :
    ∀ (pre : List (Nat × Int)) (fuel off bufsz : Nat), (∀ p ∈ pre, 0 < p.1) →
      pre.length < fuel →
      ∃ tr, recvallLoop c scriptSocket flags fuel (posReads pre ++ (rv, errno) :: rest) off bufsz
          = some (c.MQTT_ERROR_SOCKET_ERROR, rest, tr) ∧ tr.length = pre.length + 1 := by
  intro pre
  induction pre with
  | nil =>
    intro fuel off bufsz _ hfuel
    obtain ⟨f, rfl⟩ : ∃ f, fuel = f + 1 := ⟨fuel - 1, by simp at hfuel; omega⟩
    have h0 : ¬ rv > 0 := by omega
    have h3 : rv < 0 ∧ errno ≠ c.EAGAIN ∧ errno ≠ c.EWOULDBLOCK := ⟨hrv, h1, h2⟩
    refine ⟨[⟨off, (bufsz : Int), rv⟩], ?_, rfl⟩
    unfold recvallLoop
    simp only [posReads, List.map_nil, List.nil_append, scriptSocket_recv_cons]
    rw [if_neg h0, if_pos h3]
  | cons p pre ih =>
    intro fuel off bufsz hpos hfuel
    obtain ⟨f, rfl⟩ : ∃ f, fuel = f + 1 := ⟨fuel - 1, by simp at hfuel; omega⟩
    have hp : 0 < p.1 := hpos p (List.mem_cons_self _ _)
    have h0 : ((p.1 : Nat) : Int) > 0 := by omega
    obtain ⟨tr, hrun, hlen⟩ := ih f ((off + toSize ((p.1 : Nat) : Int)) % 2 ^ 64)
      (toSize ((bufsz : Int) - ((p.1 : Nat) : Int)))
      (fun q hq => hpos q (List.mem_cons_of_mem _ hq)) (by simp at hfuel; omega)
    refine ⟨⟨off, (bufsz : Int), ((p.1 : Nat) : Int)⟩ :: tr, ?_, by simp [hlen]⟩
    unfold recvallLoop
    simp only [posReads, List.map_cons, List.cons_append, scriptSocket_recv_cons, h0,
      if_true]
    simp only [posReads] at hrun
    rw [hrun]
    simp only [Run.after]

/-- OpenSSL loop over a scripted BIO: after outcomes `pre` that keep the loop
going, a non-positive result without a retry request ends the loop with the
error code, one call per outcome, the rest of the script untouched. -/
theorem sslRecvallLoop_script_error (c : Consts) (o : Int × Bool × Bool)
    (rest : List (Int × Bool × Bool)) (hrv : o.1 ≤ 0) (hretry : o.2.1 = false) :
    ∀ (pre : List (Int × Bool × Bool)) (fuel off bufsz : Nat) (f1 f2 : Bool),
      (∀ p ∈ pre, (0 < p.1 ∨ p.2.1 = true) ∧ p.2.2 = false) → pre.length < fuel →
      ∃ tr, sslRecvallLoop c scriptBio fuel ⟨f1, f2, pre ++ o :: rest⟩ off bufsz
          = some (c.MQTT_ERROR_SOCKET_ERROR, ⟨o.2.1, o.2.2, rest⟩, tr) ∧
        tr.length = pre.length + 1 := by
  intro pre
  induction pre with
  | nil =>
    intro fuel off bufsz f1 f2 _ hfuel
    obtain ⟨f, rfl⟩ : ∃ f, fuel = f + 1 := ⟨fuel - 1, by simp at hfuel; omega⟩
    have h0 : ¬ o.1 > 0 := by omega
    refine ⟨[⟨off, toInt32 (bufsz : Int), o.1⟩], ?_, rfl⟩
    unfold sslRecvallLoop
    simp only [List.nil_append, scriptBio_read_cons, scriptBio_should_retry, h0, hretry,
      if_false, Bool.not_false, if_true]
  | cons p pre ih =>
    intro fuel off bufsz f1 f2 hpre hfuel
    obtain ⟨f, rfl⟩ : ∃ f, fuel = f + 1 := ⟨fuel - 1, by simp at hfuel; omega⟩
    obtain ⟨hgo, hread⟩ := hpre p (List.mem_cons_self _ _)
    have hpre2 : ∀ q ∈ pre, (0 < q.1 ∨ q.2.1 = true) ∧ q.2.2 = false :=
      fun q hq => hpre q (List.mem_cons_of_mem _ hq)
    have hf : pre.length < f := by simp at hfuel; omega
    by_cases hpos : p.1 > 0
    · obtain ⟨tr, hrun, hlen⟩ := ih f ((off + toSize p.1) % 2 ^ 64)
        (toSize ((bufsz : Int) - p.1)) p.2.1 false hpre2 hf
      refine ⟨⟨off, toInt32 (bufsz : Int), p.1⟩ :: tr, ?_, by simp [hlen]⟩
      unfold sslRecvallLoop
      simp only [List.cons_append, scriptBio_read_cons, scriptBio_should_read, hpos, if_true,
        hread, Bool.not_false, hrun, Run.after]
    · have hret : p.2.1 = true := by
        rcases hgo with h | h
        · exact absurd h hpos
        · exact h
      obtain ⟨tr, hrun, hlen⟩ := ih f off bufsz true false hpre2 hf
      refine ⟨⟨off, toInt32 (bufsz : Int), p.1⟩ :: tr, ?_, by simp [hlen]⟩
      unfold sslRecvallLoop
      simp only [List.cons_append, scriptBio_read_cons, scriptBio_should_read,
        scriptBio_should_retry, hpos, if_false, hread, hret, Bool.not_false, Bool.not_true,
        Bool.false_eq_true, if_true, hrun, Run.after]

/-- C4: in the plain backend, for every sequence of read outcomes made of
`k ≥ 0` positive reads (whose sizes sum to a value that fits `ssize_t`) followed
by a not-ready outcome (negative result, `errno` `EAGAIN` or `EWOULDBLOCK`),
`mqtt_pal_recvall` makes exactly `k + 1` read attempts, consumes no outcome
after the not-ready one, and returns the sum of the sizes; with `k = 0` it
returns 0. -/
theorem mqtt_pal_recvall_drains_until_not_ready (c : Consts) (pre : List (Nat × Int))
    (rv errno : Int) (rest : List (Int × Int)) (bufsz : Nat) (flags : Int) (fuel : Nat)
    (hpos : ∀ p ∈ pre, 0 < p.1)
    (hfit : total pre < 2 ^ 63)
    (hrv : rv < 0) (herrno : errno = c.EAGAIN ∨ errno = c.EWOULDBLOCK)
    (hfuel : pre.length < fuel) :
    ∃ tr, mqtt_pal_recvall c scriptSocket fuel (posReads pre ++ (rv, errno) :: rest) bufsz flags
        = some (((total pre : Nat) : Int), rest, tr) ∧ tr.length = pre.length + 1 := by
  obtain ⟨tr, hrun, hlen⟩ :=
    recvallLoop_script_drain c flags rv errno rest hrv herrno pre fuel 0 bufsz hpos
      (by omega) hfuel
  refine ⟨tr, ?_, hlen⟩
  unfold mqtt_pal_recvall
  rw [hrun]
  simp

/-- Witness for C4: `recv` with capacity 4096 on an idle connection returns 0
after one attempt. -/
theorem mqtt_pal_recvall_drains_until_not_ready_witness :
    ∃ tr, mqtt_pal_recvall linuxConsts scriptSocket 1 (posReads [] ++ (-1, 11) :: []) 4096 0
        = some (((total [] : Nat) : Int), [], tr) ∧ tr.length = ([] : List (Nat × Int)).length + 1 :=
  mqtt_pal_recvall_drains_until_not_ready linuxConsts [] (-1) 11 [] 4096 0 1
    (by simp) (by decide) (by decide) (Or.inl rfl) (by decide)

/-- C6: a read attempt of `mqtt_pal_recvall` that fails for a reason other than
"nothing ready" makes the call return `MQTT_ERROR_SOCKET_ERROR` at once, with no
further read attempt, whatever was read before. Plain backend: negative result
with `errno` neither `EAGAIN` nor `EWOULDBLOCK`, after any positive reads.
OpenSSL backend: non-positive result with no retry requested, after any
outcomes that keep the loop going. The last two parts say the same of one
iteration of either loop, for every transport and every offset reached. -/
theorem mqtt_pal_recvall_hard_error_aborts (c : Consts) (flags : Int) (bufsz fuel : Nat)
    (pre : List (Nat × Int)) (rv errno : Int) (rest : List (Int × Int))
    (spre : List (Int × Bool × Bool)) (o : Int × Bool × Bool)
    (srest : List (Int × Bool × Bool)) (f1 f2 : Bool)
    (hpre : ∀ p ∈ pre, 0 < p.1)
    (hrv : rv < 0) (h1 : errno ≠ c.EAGAIN) (h2 : errno ≠ c.EWOULDBLOCK)
    (hspre : ∀ p ∈ spre, (0 < p.1 ∨ p.2.1 = true) ∧ p.2.2 = false)
    (ho : o.1 ≤ 0) (hretry : o.2.1 = false) :
    (pre.length < fuel →
      ∃ tr, mqtt_pal_recvall c scriptSocket fuel (posReads pre ++ (rv, errno) :: rest) bufsz flags
          = some (c.MQTT_ERROR_SOCKET_ERROR, rest, tr) ∧ tr.length = pre.length + 1) ∧
    (spre.length < fuel →
      ∃ tr, ssl_mqtt_pal_recvall c scriptBio fuel ⟨f1, f2, spre ++ o :: srest⟩ bufsz
          = some (c.MQTT_ERROR_SOCKET_ERROR, ⟨o.2.1, o.2.2, srest⟩, tr) ∧
        tr.length = spre.length + 1) ∧
    (∀ (σ : Type) (W : Socket σ) (n : Nat) (s : σ) (off sz : Nat),
      (W.recv s off sz flags).1.1 < 0 → (W.recv s off sz flags).1.2 ≠ c.EAGAIN →
      (W.recv s off sz flags).1.2 ≠ c.EWOULDBLOCK →
      recvallLoop c W flags (n + 1) s off sz
        = some (c.MQTT_ERROR_SOCKET_ERROR, (W.recv s off sz flags).2,
            [⟨off, (sz : Int), (W.recv s off sz flags).1.1⟩])) ∧
    (∀ (τ : Type) (V : Bio τ) (n : Nat) (t : τ) (off sz : Nat),
      (V.BIO_read t off (toInt32 (sz : Int))).1 ≤ 0 →
      V.BIO_should_retry (V.BIO_read t off (toInt32 (sz : Int))).2 = false →
      sslRecvallLoop c V (n + 1) t off sz
        = some (c.MQTT_ERROR_SOCKET_ERROR, (V.BIO_read t off (toInt32 (sz : Int))).2,
            [⟨off, toInt32 (sz : Int), (V.BIO_read t off (toInt32 (sz : Int))).1⟩])) := by
  refine ⟨?_, ?_, ?_, ?_⟩
  · intro hfuel
    exact recvallLoop_script_error c flags rv errno rest hrv h1 h2 pre fuel 0 bufsz hpre hfuel
  · intro hfuel
    exact sslRecvallLoop_script_error c o srest ho hretry spre fuel 0 bufsz f1 f2 hspre hfuel
  · intro σ W n s off sz hneg he1 he2
    have h0 : ¬ (W.recv s off sz flags).1.1 > 0 := by omega
    unfold recvallLoop
    simp only []
    rw [if_neg h0, if_pos ⟨hneg, he1, he2⟩]
  · intro τ V n t off sz hle hno
    have h0 : ¬ (V.BIO_read t off (toInt32 (sz : Int))).1 > 0 := by omega
    unfold sslRecvallLoop
    simp only []
    rw [if_neg h0]
    simp only [hno, Bool.not_false, if_true]

/-- Witness for C6: after reads of 3 and 2 bytes, `ECONNRESET` (104) on the
plain socket, respectively a failed `BIO_read` without retry request, makes the
call return the error code at the third attempt. -/
theorem mqtt_pal_recvall_hard_error_aborts_witness :
    (∃ tr, mqtt_pal_recvall linuxConsts scriptSocket 3
          (posReads [(3, 0), (2, 0)] ++ (-1, 104) :: [(5, 0)]) 4096 0
        = some (linuxConsts.MQTT_ERROR_SOCKET_ERROR, [(5, 0)], tr) ∧
        tr.length = [((3 : Nat), (0 : Int)), (2, 0)].length + 1) ∧
    (∃ tr, ssl_mqtt_pal_recvall linuxConsts scriptBio 3
          ⟨false, false, [(3, false, false), (-1, true, false)] ++ (-1, false, false) :: []⟩ 4096
        = some (linuxConsts.MQTT_ERROR_SOCKET_ERROR, ⟨false, false, []⟩, tr) ∧
        tr.length = [((3 : Int), false, false), (-1, true, false)].length + 1) :=
  have h := mqtt_pal_recvall_hard_error_aborts linuxConsts 0 4096 3 [(3, 0), (2, 0)] (-1) 104
    [(5, 0)] [(3, false, false), (-1, true, false)] (-1, false, false) [] false false
    (by decide) (by decide) (by decide) (by decide) (by decide) (by decide) rfl
  ⟨h.1 (by decide), h.2.1 (by decide)⟩

/-! ## Would-block on `send` -/

/-- C3, the code at the failing input: in the plain backend a `send` that
reports would-block (`-1` with `errno` `EAGAIN`) makes `mqtt_pal_sendall`
return `MQTT_ERROR_SOCKET_ERROR` after that single attempt, both at offset 0
and after 4 bytes were accepted, although a later attempt would have
succeeded; the OpenSSL sibling retries on the same outcome and completes. -/
theorem mqtt_pal_sendall_wouldblock_is_error :
    mqtt_pal_sendall linuxConsts scriptSocket 5 [(-1, 11), (1, 0)] 1 0
        = some (linuxConsts.MQTT_ERROR_SOCKET_ERROR, [(1, 0)], [⟨0, 1, -1⟩]) ∧
    mqtt_pal_sendall linuxConsts scriptSocket 5 [(4, 0), (-1, 11), (6, 0)] 10 0
        = some (linuxConsts.MQTT_ERROR_SOCKET_ERROR, [(6, 0)], [⟨0, 10, 4⟩, ⟨4, 6, -1⟩]) ∧
    ssl_mqtt_pal_sendall linuxConsts scriptBio 5
        ⟨false, false, [(-1, true, false), (1, false, false)]⟩ 1
        = some (1, ⟨false, false, []⟩, [⟨0, 1, -1⟩, ⟨0, 1, 1⟩]) := by
  refine ⟨by decide, by decide, by decide⟩

/-! ## `mqtt_pal_sockopen`, plain backend -/

/-- C7, the code at the failing input: with two candidates of which only the
second (endpoint 2) accepts connections, both `connect` calls go to endpoint 1,
the address of the head of the list, and the descriptor returned (4) is
connected to nothing. -/
theorem mqtt_pal_sockopen_connects_to_head_only :
    mqtt_pal_sockopen (simNet (fun _ _ => some twoCandidates) (fun a => a == 2)) simStart
        "broker" "1883"
      = (4, ⟨5, [], [4]⟩, [⟨3, 1, -1⟩, ⟨4, 1, -1⟩]) := by
  decide

/-- C8, the code at the failing input: with one candidate that refuses the
connection, the descriptor of the unconnected socket (3) is returned, not -1;
when resolution fails, -1 is returned. -/
theorem mqtt_pal_sockopen_returns_unconnected :
    mqtt_pal_sockopen (simNet (fun _ _ => some [⟨2, 1, 6, 1⟩]) (fun _ => false)) simStart
        "unreachable.invalid" "1883"
      = (3, ⟨4, [], [3]⟩, [⟨3, 1, -1⟩]) ∧
    mqtt_pal_sockopen (simNet (fun _ _ => none) (fun _ => false)) simStart
        "unreachable.invalid" "1883"
      = (-1, simStart, []) := by
  refine ⟨by decide, by decide⟩

/-! ## `mqtt_pal_sockopen`, OpenSSL backend -/

/-- C9: in the OpenSSL backend, whenever `mqtt_pal_sockopen` returns a handle,
the verification result of the session is exactly `X509_V_OK`; for every other
verification result the check that follows the handshake ends the process with
`exit(1)` and nothing is returned to the caller. -/
theorem ssl_mqtt_pal_sockopen_handle_only_if_verified {σ : Type} (W : Tls σ) (fuel : Nat)
    (loaded : Bool) (s : σ) (addr port : String) (b : Bool) (s1 : σ)
    (hrun : ssl_mqtt_pal_sockopen W fuel loaded s addr port = some (OpenResult.handle, b, s1)) :
    W.SSL_get_verify_result s1 = X509_V_OK ∧
      ∀ s2, W.SSL_get_verify_result s2 ≠ X509_V_OK → verifyGate W s2 = OpenResult.exited 1 := by
  constructor
  · unfold ssl_mqtt_pal_sockopen at hrun
    simp only [] at hrun
    generalize (if (!loaded) = true then W.load_library s else s) = s0 at hrun
    by_cases hv : (W.load_verify_locations s0).1 = 0
    · rw [if_pos hv] at hrun
      simp at hrun
    · rw [if_neg hv] at hrun
      split at hrun
      · simp at hrun
      · rename_i s3 _
        by_cases hc : (W.BIO_do_connect s3).1 ≤ 0
        · rw [if_pos hc] at hrun
          simp at hrun
        · rw [if_neg hc] at hrun
          simp only [Option.some.injEq, Prod.mk.injEq] at hrun
          obtain ⟨hg, _, hs⟩ := hrun
          rw [← hs]
          by_contra hne
          simp [verifyGate, hne] at hg
  · intro s2 hne
    simp [verifyGate, hne]

/-- Witness for C9: a session whose certificate verifies yields a handle; the
same session with verification result 18 (self-signed certificate) ends in
`exit(1)`. -/
theorem ssl_mqtt_pal_sockopen_handle_only_if_verified_witness :
    ssl_mqtt_pal_sockopen (simTls 0) 5 false 0 "test.mosquitto.org" "8883"
        = some (OpenResult.handle, true, 2) ∧
    ssl_mqtt_pal_sockopen (simTls 18) 5 false 0 "test.mosquitto.org" "8883"
        = some (OpenResult.exited 1, true, 2) ∧
    ((simTls 0).SSL_get_verify_result 2 = X509_V_OK ∧
      ∀ s2, (simTls 0).SSL_get_verify_result s2 ≠ X509_V_OK →
        verifyGate (simTls 0) s2 = OpenResult.exited 1) :=
  ⟨by decide, by decide,
   ssl_mqtt_pal_sockopen_handle_only_if_verified (simTls 0) 5 false 0 "test.mosquitto.org"
     "8883" true 2 (by decide)⟩

end MqttPal
